import Mathlib

/-!
Verification of the backup rotation core of the `mysqlbak` repository
(package `bak`, file `archive.go`, together with the orchestrator in
`main.go`).

The Go code is shallowly embedded: machine integers (`int64` Unix
timestamps) become `Int`; `time.Duration` values are modelled in whole
seconds (every duration in the program is a whole number of seconds, and
the single float comparison `float64(nowUnix-f.created) < d.Seconds()`
is exact integer arithmetic at these magnitudes, so it is embedded as an
`Int` comparison); slices become `List`s; the `nil` pointer holes the
scheduler punches into its working slice become `Option` entries; file
system and process effects become oracle parameters (a `Bool`/function
argument saying whether each external call fails).
-/

namespace Mysqlbak

/-- Constant `quota = 12` from the `const` block of `archive.go`. -/
def quota : Nat := 12

/-- Constant `rotationInterval = time.Hour`, in seconds. -/
def rotationInterval : Int := 3600

/-- The exponential series built by `init()` in `archive.go`:
`timeSeries = make([]time.Duration, quota)`, `timeSeries[0] = 5*time.Minute`,
and `timeSeries[n] = rotationInterval * 1 << uint(n-1)` for `n = 1..quota-1`.
Durations are in seconds. -/
def timeSeries : List Int :=
  (List.range quota).map fun n => if n = 0 then 300 else rotationInterval * 2 ^ (n - 1)

/-- Struct `Finfo` from `archive.go`: the fields the rotation algorithm reads.
`created` is `ftime.Unix()` (seconds); `name` and `size` come from the
embedded `os.FileInfo`. -/
structure Finfo where
  name : String
  size : Int
  created : Int
deriving DecidableEq, Repr

/-- The `archives` struct of `archive.go`: a set of backup tapes and the
purge list. -/
structure archives where
  tapes : List (List Finfo)
  purge : List Finfo
deriving DecidableEq, Repr

/-- The window test of the assignment pass:
`float64(nowUnix-f.created) < d.Seconds()` — this file fits in this time
window (the comparison is exact integer arithmetic, see the header). -/
def fits (nowUnix d : Int) (f : Finfo) : Bool :=
  nowUnix - f.created < d

/-- The body of the inner loop of the assignment pass of `sortAsArchives`:
for one duration `d`, walk the (hole-carrying) file buffer in order, claim
every non-nil file that fits the window into this tape (in file order),
and replace each claimed file by a hole (`files[j] = nil`). -/
def claimStep (nowUnix d : Int) : List (Option Finfo) → List Finfo × List (Option Finfo)
  | [] => ([], [])
  | none :: rest =>
    let (c, r) := claimStep nowUnix d rest
    (c, none :: r)
  | some f :: rest =>
    let (c, r) := claimStep nowUnix d rest
    if fits nowUnix d f then (f :: c, none :: r) else (c, some f :: r)

/-- The assignment pass of `sortAsArchives`: `for i, d := range timeSeries`,
building one tape per duration and threading the hole-carrying buffer. -/
def assignPass (nowUnix : Int) : List Int → List (Option Finfo) → List (List Finfo) × List (Option Finfo)
  | [], files => ([], files)
  | d :: ds, files =>
    let (c, files1) := claimStep nowUnix d files
    let (ts, files2) := assignPass nowUnix ds files1
    (c :: ts, files2)

/-- The collision-resolution loop of `sortAsArchives`
(`for i, t := range tapes`), embedded with explicit fuel equal to the
number of remaining iterations (the Go loop runs `i = 0 .. len(tapes)-1`
and `List.set` keeps the length constant, so `fuel = tapes.length - i`).
Each step reads `t := tapes[i]`; with fewer than 2 entries it does
nothing; otherwise, when `i` is not the last index and `tapes[i+1]` is
empty it appends `t[1:]` onto `tapes[i+1]` (a promotion — the source tape
is not truncated, matching the Go code), and otherwise it appends `t[1:]`
to the purge accumulator. -/
def collideGo : Nat → Nat → List (List Finfo) → List Finfo → List (List Finfo) × List Finfo
  | 0, _, tapes, purge => (tapes, purge)
  | fuel + 1, i, tapes, purge =>
    let t := tapes.getD i []
    if t.length < 2 then collideGo fuel (i + 1) tapes purge
    else if tapes.length - 1 ≠ i ∧ tapes.getD (i + 1) [] = [] then
      collideGo fuel (i + 1) (tapes.set (i + 1) (tapes.getD (i + 1) [] ++ t.tail)) purge
    else collideGo fuel (i + 1) tapes (purge ++ t.tail)

/-- The state of the local `tapes` variable of `sortAsArchives` after
the assignment pass over `timeSeries` (one tape per window). -/
def assignedTapes (files : List Finfo) (nowUnix : Int) : List (List Finfo) :=
  (assignPass nowUnix timeSeries (files.map some)).1

/-- The leftover non-nil files of `sortAsArchives` after the assignment
pass: too old to fit inside the defined time series; they seed `a.purge`. -/
def leftoverFiles (files : List Finfo) (nowUnix : Int) : List Finfo :=
  (assignPass nowUnix timeSeries (files.map some)).2.filterMap id

/-- Function `sortAsArchives(files, now)` from `archive.go`.  The result's `tapes`
field is `make([][]*Finfo, quota)` — `quota` nil tapes that the function
never writes to (all bucket bookkeeping happens in the local variable
`tapes`, which is dropped); `purge` is the too-old leftovers followed by
the collision excess. -/
def sortAsArchives (files : List Finfo) (nowUnix : Int) : archives :=
  { tapes := List.replicate quota [],
    purge := (collideGo (assignedTapes files nowUnix).length 0
        (assignedTapes files nowUnix) (leftoverFiles files nowUnix)).2 }

/-- The final state of the local `tapes` variable of `sortAsArchives`
after the collision-resolution loop (internal state, discarded by the Go
function; exposed here to reason about the collision pass). -/
def sortAsArchivesLocalTapes (files : List Finfo) (nowUnix : Int) : List (List Finfo) :=
  (collideGo (assignedTapes files nowUnix).length 0
      (assignedTapes files nowUnix) (leftoverFiles files nowUnix)).1

/-- Interface `os.FileInfo` as the Scanner reads it: the file name and reported
size (other fields are not consulted by `parseFileInfoList`). -/
structure FileInfo where
  name : String
  size : Int
deriving DecidableEq, Repr

/-- Function `sortFileInfo` from `archive.go`: `sort.Sort(FinfoList(fis))` with
`Less(i, j) = fil[i].created > fil[j].created` ("prefers the latest
time").  `sort.Sort`'s contract is that the result is ordered by `Less`;
it is embedded as a comparison sort for that ordering. -/
def sortFileInfo (fis : List Finfo) : List Finfo :=
  fis.mergeSort fun a b => b.created ≤ a.created

/-- Function `parseFileInfoList` from `archive.go`.  For each directory entry:
take the substring before the first `.` (entries with no `.` are logged
and skipped), parse it with the archiver's time format (parse failures
are logged and skipped), keep `created = ftime.Unix()`; finally sort
newest-first.  `time.Parse` with the configured format is the oracle
`parseTime : String → Option Int` returning the Unix seconds. -/
def parseFileInfoList (parseTime : String → Option Int) (fis : List FileInfo) : List Finfo :=
  sortFileInfo <| fis.filterMap fun fi =>
    if fi.name.contains '.' then
      match parseTime (fi.name.takeWhile fun c => c ≠ '.') with
      | some t => some ⟨fi.name, fi.size, t⟩
      | none => none
    else none

/-- The purge loop of `Rotate` in `archive.go`: for each staged file, in
order, call `os.Remove` (the oracle `removeFails` says which removals
fail); failures are logged and collected in `errors`, and never stop the
loop.  Returns the names attempted (in order) and the names whose
removal failed (in order). -/
def runPurge (removeFails : String → Bool) : List Finfo → List String × List String
  | [] => ([], [])
  | f :: rest =>
    let r := runPurge removeFails rest
    (f.name :: r.1, if removeFails f.name then f.name :: r.2 else r.2)

/-- The aggregate error of `Rotate`'s purge phase:
`if len(errors) > 0 { return fmt.Errorf("unable to remove all excess backups") }`. -/
def rotatePurgeError (removeFails : String → Bool) (purge : List Finfo) : Option String :=
  if 0 < (runPurge removeFails purge).2.length then
    some "unable to remove all excess backups"
  else none

/-- Error messages produced by `Archive` in `archive.go` (the `%q`
quoting is elided; each message names the database). -/
def openErrMsg (db : String) : String := "failed to open db archive for " ++ db

/-- Message `errors.Wrapf(err, "mysql dump failed on database %q", database)`. -/
def runErrMsg (db : String) : String := "mysql dump failed on database " ++ db

/-- Message `"failed closing the gzip archiver for %q"`. -/
def gzCloseErrMsg (db : String) : String := "failed closing the gzip archiver for " ++ db

/-- Message `"failed closing the file archive for %q"`. -/
def fCloseErrMsg (db : String) : String := "failed closing the file archive for " ++ db

/-- Outcome of one `Archive` call: whether the target file
`<now>.sql.gz` exists afterwards, and the returned error (if any). -/
structure ArchiveOutcome where
  fileExists : Bool
  errMsg : Option String
deriving DecidableEq, Repr

/-- Function `Archive(database)` from `archive.go`, with the external effects as
oracles: `openFails` (`os.OpenFile` with `O_CREATE|O_WRONLY`),
`runFails` (`cmd.Run()` of `mysqldump`), and the two deferred `Close`
calls.  `preExists` is whether the target file existed beforehand.  On
open failure nothing was created.  After a successful open the file
exists; if `cmd.Run()` fails the code does `os.Remove(f.Name())`
(removing the file it just created — in this model of a private backup
directory the removal succeeds; its error is ignored by the code) and
returns the wrapped run error, except that the deferred closes run
afterwards and overwrite the named return `eArch` when they themselves
fail (`f.Close` runs last, so it wins over `gzw.Close`). -/
def Archive (db : String) (preExists openFails runFails gzCloseFails fCloseFails : Bool) :
    ArchiveOutcome :=
  if openFails then ⟨preExists, some (openErrMsg db)⟩
  else if runFails then
    ⟨false,
     some (if fCloseFails then fCloseErrMsg db
           else if gzCloseFails then gzCloseErrMsg db
           else runErrMsg db)⟩
  else
    ⟨true,
     if fCloseFails then some (fCloseErrMsg db)
     else if gzCloseFails then some (gzCloseErrMsg db)
     else none⟩

/-- The per-source loop of `main()` in `main.go`, with oracles for
whether `arch.Archive` and `arch.Rotate` fail for each database.  The
accumulator is the `exit` variable (set to `1` on any failure, never
reset).  For each database the loop runs `Archive` (always); on archive
failure it logs and `continue`s (that source's `Rotate` is skipped), and
otherwise runs `Rotate`.  Returns the final exit code and, per database
in order, whether its rotation was attempted. -/
def runAll (archFails rotFails : String → Bool) : List String → Nat → Nat × List (String × Bool)
  | [], exit => (exit, [])
  | db :: rest, exit =>
    if archFails db then
      let r := runAll archFails rotFails rest 1
      (r.1, (db, false) :: r.2)
    else
      let r := runAll archFails rotFails rest (if rotFails db then 1 else exit)
      (r.1, (db, true) :: r.2)

/-- Entry point loop of `main()` started with `var exit int` (zero). -/
def mainRun (archFails rotFails : String → Bool) (dbs : List String) :
    Nat × List (String × Bool) :=
  runAll archFails rotFails dbs 0

/-- The count taken by `TestArchivalSort`: total entries across the
returned tapes. -/
def tapeCount (a : archives) : Nat :=
  a.tapes.foldl (fun n t => n + t.length) 0

/-- Specification device for the assignment pass (following the spec's
description, to be compared with `assignPass`): the hole-carrying buffer
in which exactly the entries satisfying the claimed-predicate `p` have
been replaced by holes. -/
def markClaimed (p : Finfo → Bool) : List Finfo → List (Option Finfo)
  | [] => []
  | f :: rest => (if p f then none else some f) :: markClaimed p rest

/-- Specification device for the assignment pass (following the spec's
description): bucket by bucket, the entries not yet claimed (predicate
`p`) whose age fits this bucket's window, each bucket enlarging the
claimed set. -/
def bucketsSpec (nowUnix : Int) (files : List Finfo) :
    (Finfo → Bool) → List Int → List (List Finfo)
  | _, [] => []
  | p, d :: ds =>
    files.filter (fun f => !p f && fits nowUnix d f) ::
      bucketsSpec nowUnix files (fun f => p f || fits nowUnix d f) ds

/-- C8: the generated `timeSeries` has bucket 0 equal to the 5-minute
hot-window constant (300 s), bucket `k` equal to
`rotationInterval * 2 ^ (k-1)` for `k = 1 .. quota-1`, and its
thresholds are monotonically non-decreasing in the bucket index. -/
theorem timeSeries_shape :
    timeSeries.getD 0 0 = 300 ∧
    (∀ k, k < quota → 1 ≤ k → timeSeries.getD k 0 = rotationInterval * 2 ^ (k - 1)) ∧
    (∀ j, j < quota → ∀ i, i ≤ j → timeSeries.getD i 0 ≤ timeSeries.getD j 0) := by
  refine ⟨rfl, ?_, ?_⟩ <;> decide

/-- Witness for C8 at concrete bucket indices. -/
theorem timeSeries_shape_witness :
    timeSeries.getD 5 0 = rotationInterval * 2 ^ 4 ∧
    timeSeries.getD 3 0 ≤ timeSeries.getD 7 0 :=
  ⟨timeSeries_shape.2.1 5 (by decide) (by decide),
   timeSeries_shape.2.2 7 (by decide) 3 (by decide)⟩

/-- C1: for any input entries and reference time, the total number of
entries across all tapes of the `archives` value returned by
`sortAsArchives` never exceeds the configured quota (the count taken by
`TestArchivalSort`).  This holds because the returned `tapes` field is
the untouched `make([][]*Finfo, quota)` allocation (see C5). -/
theorem sortAsArchives_quota (files : List Finfo) (nowUnix : Int) :
    tapeCount (sortAsArchives files nowUnix) ≤ quota := by
  have h : tapeCount (sortAsArchives files nowUnix) = 0 := rfl
  rw [h]
  exact Nat.zero_le _

/-- C5: every tape of the `archives` value returned by `sortAsArchives`
is empty — the field is allocated with `quota` slots and never written
(the bucket bookkeeping lives in a discarded local) — so any count over
the returned tapes is zero. -/
theorem sortAsArchives_tapes_empty (files : List Finfo) (nowUnix : Int) :
    (sortAsArchives files nowUnix).tapes = List.replicate quota [] ∧
    (∀ t ∈ (sortAsArchives files nowUnix).tapes, t = ([] : List Finfo)) ∧
    tapeCount (sortAsArchives files nowUnix) = 0 := by
  refine ⟨rfl, ?_, rfl⟩
  intro t ht
  rw [show (sortAsArchives files nowUnix).tapes = List.replicate quota [] from rfl] at ht
  exact List.eq_of_mem_replicate ht

/-- Witness for C5 at a concrete input and a concrete member tape. -/
theorem sortAsArchives_tapes_empty_witness :
    ([] : List Finfo) = [] ∧ tapeCount (sortAsArchives [⟨"w", 0, 0⟩] 500) = 0 :=
  ⟨(sortAsArchives_tapes_empty [⟨"w", 0, 0⟩] 500).2.1 [] (by decide),
   (sortAsArchives_tapes_empty [⟨"w", 0, 0⟩] 500).2.2⟩

/-- C4: `sortAsArchives` is embedded as a pure function of its inputs
(it performs no I/O), so two runs on equal entry lists and equal
reference times produce identical `archives` results. -/
theorem sortAsArchives_deterministic (files1 files2 : List Finfo) (now1 now2 : Int)
    (hf : files1 = files2) (hn : now1 = now2) :
    sortAsArchives files1 now1 = sortAsArchives files2 now2 := by
  subst hf; subst hn; rfl

/-- Witness for C4 at a concrete input. -/
theorem sortAsArchives_deterministic_witness :
    sortAsArchives [⟨"w", 0, 90⟩] 100 = sortAsArchives [⟨"w", 0, 90⟩] 100 :=
  sortAsArchives_deterministic [⟨"w", 0, 90⟩] [⟨"w", 0, 90⟩] 100 100 rfl rfl

/-- C9: when the dump command invocation fails (`runFails = true` after
a successful open), `Archive` removes the just-created file — the target
file does not exist afterwards — and returns an error whose message
names the source database (whichever of the run error or a
deferred-close error ends up in `eArch`, every candidate message ends
with the database name). -/
theorem archive_dump_failure_cleanup (db : String) (preExists gzCloseFails fCloseFails : Bool) :
    (Archive db preExists false true gzCloseFails fCloseFails).fileExists = false ∧
    ∃ m, (Archive db preExists false true gzCloseFails fCloseFails).errMsg = some m ∧
      ∃ p, m = p ++ db := by
  cases gzCloseFails <;> cases fCloseFails <;> exact ⟨rfl, _, rfl, _, rfl⟩

/-- Every staged file is attempted by the purge loop, in order. -/
lemma runPurge_fst (removeFails : String → Bool) :
    ∀ purge : List Finfo, (runPurge removeFails purge).1 = purge.map Finfo.name := by
  intro purge
  induction purge with
  | nil => rfl
  | cons f rest ih => simp [runPurge, ih]

/-- The collected error list is nonempty exactly when some removal failed. -/
lemma runPurge_pos_iff (removeFails : String → Bool) :
    ∀ purge : List Finfo,
      (0 < (runPurge removeFails purge).2.length ↔ ∃ f ∈ purge, removeFails f.name = true) := by
  intro purge
  induction purge with
  | nil => simp [runPurge]
  | cons f rest ih =>
    by_cases hf : removeFails f.name
    · simp [runPurge, hf]
    · simp [runPurge, hf, ih]

/-- C7: the purge executor attempts the removal of every staged file
(failures do not stop the loop) and `Rotate` returns its single
aggregate error exactly when at least one removal failed; concretely,
with three staged files of which only `"b"` fails, all three are
attempted, exactly one failure is collected, and the one aggregate error
is returned. -/
theorem rotate_purge_resilience (removeFails : String → Bool) (purge : List Finfo) :
    (runPurge removeFails purge).1 = purge.map Finfo.name ∧
    ((rotatePurgeError removeFails purge).isSome = true ↔
      ∃ f ∈ purge, removeFails f.name = true) ∧
    ((runPurge (fun s => s == "b") [⟨"a", 1, 0⟩, ⟨"b", 1, 0⟩, ⟨"c", 1, 0⟩]).1
        = ["a", "b", "c"] ∧
     (runPurge (fun s => s == "b") [⟨"a", 1, 0⟩, ⟨"b", 1, 0⟩, ⟨"c", 1, 0⟩]).2
        = ["b"] ∧
     rotatePurgeError (fun s => s == "b") [⟨"a", 1, 0⟩, ⟨"b", 1, 0⟩, ⟨"c", 1, 0⟩]
        = some "unable to remove all excess backups") := by
  refine ⟨runPurge_fst removeFails purge, ?_, by decide, by decide, by decide⟩
  rw [rotatePurgeError]
  by_cases h : 0 < (runPurge removeFails purge).2.length
  · rw [if_pos h]
    simp only [Option.isSome_some, true_iff]
    exact (runPurge_pos_iff removeFails purge).1 h
  · rw [if_neg h]
    simp only [Option.isSome_none, Bool.false_eq_true, false_iff]
    intro hex
    exact h ((runPurge_pos_iff removeFails purge).2 hex)

/-- The final exit code of the per-source loop: `1` when any source
failed production or rotation, otherwise the incoming accumulator. -/
lemma runAll_fst (archFails rotFails : String → Bool) :
    ∀ (dbs : List String) (exit : Nat),
      (runAll archFails rotFails dbs exit).1 =
        if dbs.any (fun db => archFails db || rotFails db) then 1 else exit := by
  intro dbs
  induction dbs with
  | nil => intro exit; simp [runAll]
  | cons db rest ih =>
    intro exit
    by_cases ha : archFails db
    · simp [runAll, ha, ih]
    · by_cases hr : rotFails db <;> simp [runAll, ha, hr, ih]

/-- The per-source log: every database is processed in order; its
rotation is attempted exactly when its own production succeeded. -/
lemma runAll_log (archFails rotFails : String → Bool) :
    ∀ (dbs : List String) (exit : Nat),
      (runAll archFails rotFails dbs exit).2 = dbs.map fun db => (db, !archFails db) := by
  intro dbs
  induction dbs with
  | nil => intro exit; rfl
  | cons db rest ih =>
    intro exit
    by_cases ha : archFails db <;> simp [runAll, ha, ih]

/-- C10: the orchestrator's loop attempts production for every listed
source regardless of earlier failures (the log covers `dbs` in order),
attempts rotation for a source exactly when that source's own production
succeeded (independent of other sources), and exits non-zero if and only
if at least one source encountered a production or rotation error. -/
theorem main_per_source_isolation (archFails rotFails : String → Bool) (dbs : List String) :
    ((mainRun archFails rotFails dbs).2.map Prod.fst = dbs) ∧
    (∀ p ∈ (mainRun archFails rotFails dbs).2, p.2 = !archFails p.1) ∧
    ((mainRun archFails rotFails dbs).1 ≠ 0 ↔
      ∃ db ∈ dbs, archFails db = true ∨ rotFails db = true) := by
  refine ⟨?_, ?_, ?_⟩
  · rw [mainRun, runAll_log]
    rw [List.map_map]
    rw [show (Prod.fst ∘ fun db : String => (db, !archFails db)) = id from rfl]
    exact List.map_id dbs
  · intro p hp
    rw [mainRun, runAll_log] at hp
    obtain ⟨db, _, rfl⟩ := List.mem_map.1 hp
    rfl
  · rw [mainRun, runAll_fst]
    by_cases h : dbs.any (fun db => archFails db || rotFails db)
    · simp only [h, if_pos]
      constructor
      · intro _
        obtain ⟨db, hmem, hor⟩ := List.any_eq_true.1 h
        exact ⟨db, hmem, Bool.or_eq_true_iff.1 hor⟩
      · intro _; omega
    · simp only [h, if_neg]
      constructor
      · intro h0; exact absurd rfl h0
      · intro ⟨db, hmem, hor⟩
        exact absurd (List.any_eq_true.2 ⟨db, hmem, Bool.or_eq_true_iff.2 hor⟩) h

/-- Witness for C10 at a concrete run: two sources, the first failing
production. -/
theorem main_per_source_isolation_witness :
    ((("x", false) : String × Bool).2 = !(fun s : String => s == "x") "x") ∧
    (mainRun (fun s => s == "x") (fun _ => false) ["x", "y"]).1 ≠ 0 :=
  ⟨(main_per_source_isolation (fun s => s == "x") (fun _ => false) ["x", "y"]).2.1
      ("x", false) (by decide),
   (main_per_source_isolation (fun s => s == "x") (fun _ => false) ["x", "y"]).2.2.mpr
      ⟨"x", by decide, Or.inl (by decide)⟩⟩

/-- C6: the Scanner returns entries ordered newest-first: pairwise, any
later entry's `createdAt` is at most any earlier entry's (`for all i<j`,
`entries[i].createdAt ≥ entries[j].createdAt`). -/
theorem scanner_sorted (parseTime : String → Option Int) (fis : List FileInfo) :
    List.Pairwise (fun a b => b.created ≤ a.created) (parseFileInfoList parseTime fis) := by
  have h := @List.sorted_mergeSort Finfo
    (fun a b : Finfo => decide (b.created ≤ a.created))
    (fun a b c hab hbc => by
      simp only [decide_eq_true_eq] at *
      exact le_trans hbc hab)
    (fun a b => by
      simp only [Bool.or_eq_true, decide_eq_true_eq]
      exact Int.le_total _ _)
    (fis.filterMap fun fi =>
      if fi.name.contains '.' then
        match parseTime (fi.name.takeWhile fun c => c ≠ '.') with
        | some t => some ⟨fi.name, fi.size, t⟩
        | none => none
      else none)
  rw [parseFileInfoList, sortFileInfo]
  exact h.imp fun hab => of_decide_eq_true hab

/-- A buffer with no holes is the all-unclaimed marked buffer. -/
lemma markClaimed_false (files : List Finfo) :
    files.map some = markClaimed (fun _ => false) files := by
  induction files with
  | nil => rfl
  | cons f rest ih => simp [markClaimed, ih]

/-- One inner loop of the assignment pass over a marked buffer: it
claims, in file order, the unclaimed entries fitting the window, and the
buffer comes back with the claimed-predicate enlarged by this window. -/
lemma claimStep_markClaimed (nowUnix d : Int) (p : Finfo → Bool) (files : List Finfo) :
    claimStep nowUnix d (markClaimed p files) =
      (files.filter (fun f => !p f && fits nowUnix d f),
       markClaimed (fun f => p f || fits nowUnix d f) files) := by
  induction files with
  | nil => rfl
  | cons f rest ih =>
    by_cases hp : p f
    · simp [markClaimed, hp, claimStep, ih, List.filter_cons]
    · by_cases hf : fits nowUnix d f
      · simp [markClaimed, hp, hf, claimStep, ih, List.filter_cons]
      · simp [markClaimed, hp, hf, claimStep, ih, List.filter_cons]

/-- The assignment pass over a marked buffer produces the spec's
buckets, and returns the buffer marked with every window claimed. -/
lemma assignPass_markClaimed (nowUnix : Int) (files : List Finfo) :
    ∀ (ds : List Int) (p : Finfo → Bool),
      assignPass nowUnix ds (markClaimed p files) =
        (bucketsSpec nowUnix files p ds,
         markClaimed (fun f => p f || ds.any fun d => fits nowUnix d f) files) := by
  intro ds
  induction ds with
  | nil =>
    intro p
    simp [assignPass, bucketsSpec, List.any_nil, Bool.or_false]
  | cons d ds ih =>
    intro p
    simp [assignPass, claimStep_markClaimed, ih, bucketsSpec, List.any_cons, Bool.or_assoc]

/-- Bucket `i` of the spec's buckets: the entries that fit window `i`
and were claimed by no earlier window (nor by the incoming predicate). -/
lemma bucketsSpec_getD (nowUnix : Int) (files : List Finfo) :
    ∀ (ds : List Int) (p : Finfo → Bool) (i : Nat), i < ds.length →
      (bucketsSpec nowUnix files p ds).getD i [] =
        files.filter fun f =>
          !(p f || (ds.take i).any fun d => fits nowUnix d f) &&
            fits nowUnix (ds.getD i 0) f := by
  intro ds
  induction ds with
  | nil => intro p i h; exact absurd h (by simp)
  | cons d ds ih =>
    intro p i h
    cases i with
    | zero => simp [bucketsSpec]
    | succ i =>
      have hi : i < ds.length := by simpa using h
      simp only [bucketsSpec, List.getD_cons_succ, List.take_succ_cons, List.any_cons,
        List.getD_cons_succ]
      rw [ih (fun f => p f || fits nowUnix d f) i hi]
      simp [Bool.or_assoc]

/-- Reading the unclaimed entries back out of a marked buffer. -/
lemma filterMap_id_markClaimed (p : Finfo → Bool) (files : List Finfo) :
    (markClaimed p files).filterMap id = files.filter fun f => !p f := by
  induction files with
  | nil => rfl
  | cons f rest ih =>
    by_cases hp : p f <;> simp [markClaimed, hp, ih, List.filter_cons]

/-- The collision loop only ever appends to the purge accumulator. -/
lemma collideGo_purge_mono :
    ∀ (fuel i : Nat) (tapes : List (List Finfo)) (purge : List Finfo),
      ∃ q, (collideGo fuel i tapes purge).2 = purge ++ q := by
  intro fuel
  induction fuel with
  | zero => intro i tapes purge; exact ⟨[], by simp [collideGo]⟩
  | succ fuel ih =>
    intro i tapes purge
    rw [collideGo]
    split
    · exact ih _ _ _
    · split
      · exact ih _ _ _
      · obtain ⟨q, hq⟩ := ih (i + 1) tapes (purge ++ (tapes.getD i []).tail)
        exact ⟨(tapes.getD i []).tail ++ q, by simpa [List.append_assoc] using hq⟩

/-- C3: in the assignment pass, buckets are processed in ascending index
order and bucket `i` claims exactly the entries (in original order)
whose age is strictly below its threshold and which no earlier
(smaller-threshold) bucket claimed; the entries left unassigned after
all buckets are exactly those fitting no window, and every such too-old
entry ends up in the purge set of `sortAsArchives`, regardless of the
other entries. -/
theorem assignment_first_fit (nowUnix : Int) (files : List Finfo) :
    (∀ i, i < quota →
        (assignedTapes files nowUnix).getD i [] =
          files.filter fun f =>
            !((timeSeries.take i).any fun d => fits nowUnix d f) &&
              fits nowUnix (timeSeries.getD i 0) f) ∧
    (leftoverFiles files nowUnix =
        files.filter fun f => !(timeSeries.any fun d => fits nowUnix d f)) ∧
    (∀ f ∈ files, (∀ d ∈ timeSeries, fits nowUnix d f = false) →
        f ∈ (sortAsArchives files nowUnix).purge) := by
  have hts : timeSeries.length = quota := by decide
  have hleft : leftoverFiles files nowUnix =
      files.filter fun f => !(timeSeries.any fun d => fits nowUnix d f) := by
    rw [leftoverFiles, markClaimed_false files, assignPass_markClaimed,
      filterMap_id_markClaimed]
    simp
  refine ⟨?_, hleft, ?_⟩
  · intro i hi
    rw [assignedTapes, markClaimed_false files, assignPass_markClaimed, bucketsSpec_getD]
    · simp
    · omega
  · intro f hf hold
    have hmem : f ∈ leftoverFiles files nowUnix := by
      rw [hleft]
      refine List.mem_filter.2 ⟨hf, ?_⟩
      rw [Bool.not_eq_eq_eq_not, Bool.not_true]
      exact List.any_eq_false.2 fun d hd => by simp [hold d hd]
    obtain ⟨q, hq⟩ := collideGo_purge_mono
      (assignedTapes files nowUnix).length 0
      (assignedTapes files nowUnix) (leftoverFiles files nowUnix)
    rw [sortAsArchives]
    rw [hq]
    exact List.mem_append_left _ hmem

/-- Witness for C3: a lone entry far older than the widest window is
purged, and bucket 0 of the assignment pass is characterized at the same
concrete input. -/
theorem assignment_first_fit_witness :
    ((⟨"old", 0, 0⟩ : Finfo) ∈ (sortAsArchives [⟨"old", 0, 0⟩] 10000000).purge) ∧
    (assignedTapes [⟨"old", 0, 0⟩] 10000000).getD 0 [] =
      [(⟨"old", 0, 0⟩ : Finfo)].filter fun f =>
        !((timeSeries.take 0).any fun d => fits 10000000 d f) &&
          fits 10000000 (timeSeries.getD 0 0) f :=
  ⟨(assignment_first_fit 10000000 [⟨"old", 0, 0⟩]).2.2 ⟨"old", 0, 0⟩ (by decide)
      (by decide),
   (assignment_first_fit 10000000 [⟨"old", 0, 0⟩]).1 0 (by decide)⟩

/-- C2: one visit of the collision-resolution loop at bucket `i` with at
least two entries `t = tapes[i]`: when `i` is not the last bucket and
bucket `i+1` is currently empty, the excess `t[1:]` is moved into bucket
`i+1` and the loop continues at `i+1` — the promoted entries are
re-examined there, which is the forward cascade — with the purge set
untouched; otherwise the excess `t[1:]` is appended to the purge set.
The first entry `t[0]` is never part of the excess.  A bucket with
fewer than two entries is left alone.  Concretely, for the two entries
aged `0 s` and `1 s` (both inside bucket 0's 300-second window, bucket 1
empty), the newer heads bucket 0, the older is promoted into bucket 1,
and nothing is purged. -/
theorem collide_step_and_cascade :
    (∀ (fuel i : Nat) (tapes : List (List Finfo)) (purge : List Finfo),
        2 ≤ (tapes.getD i []).length →
        (((tapes.length - 1 ≠ i ∧ tapes.getD (i + 1) [] = []) →
            collideGo (fuel + 1) i tapes purge =
              collideGo fuel (i + 1) (tapes.set (i + 1) (tapes.getD i []).tail) purge) ∧
         (¬(tapes.length - 1 ≠ i ∧ tapes.getD (i + 1) [] = []) →
            collideGo (fuel + 1) i tapes purge =
              collideGo fuel (i + 1) tapes (purge ++ (tapes.getD i []).tail)))) ∧
    (∀ (fuel i : Nat) (tapes : List (List Finfo)) (purge : List Finfo),
        (tapes.getD i []).length < 2 →
        collideGo (fuel + 1) i tapes purge = collideGo fuel (i + 1) tapes purge) ∧
    ((sortAsArchives [⟨"t0", 0, 1000000⟩, ⟨"t1", 0, 999999⟩] 1000000).purge = [] ∧
     ((sortAsArchivesLocalTapes [⟨"t0", 0, 1000000⟩, ⟨"t1", 0, 999999⟩] 1000000).getD 0
        []).head? = some ⟨"t0", 0, 1000000⟩ ∧
     (sortAsArchivesLocalTapes [⟨"t0", 0, 1000000⟩, ⟨"t1", 0, 999999⟩] 1000000).getD 1 [] =
       [⟨"t1", 0, 999999⟩]) := by
  refine ⟨?_, ?_, by decide, by decide, by decide⟩
  · intro fuel i tapes purge hlen
    constructor
    · intro h
      simp only [collideGo]
      rw [if_neg (show ¬(tapes.getD i []).length < 2 by omega), if_pos h, h.2,
        List.nil_append]
    · intro h
      simp only [collideGo]
      rw [if_neg (show ¬(tapes.getD i []).length < 2 by omega), if_neg h]
  · intro fuel i tapes purge hlen
    simp only [collideGo]
    rw [if_pos hlen]

/-- Witness for C2: the promotion step applied at a concrete state — a
collision in bucket 0 with bucket 1 empty moves the excess forward. -/
theorem collide_step_and_cascade_witness :
    collideGo 3 0 [[⟨"a", 0, 5⟩, ⟨"b", 0, 4⟩], [], []] [] =
      collideGo 2 1
        ([[⟨"a", 0, 5⟩, ⟨"b", 0, 4⟩], [], []].set 1
          (([[(⟨"a", 0, 5⟩ : Finfo), ⟨"b", 0, 4⟩], [], []].getD 0 []).tail)) [] :=
  (collide_step_and_cascade.1 2 0 [[⟨"a", 0, 5⟩, ⟨"b", 0, 4⟩], [], []] []
    (by decide)).1 (by decide)

end Mysqlbak
